import Mathlib

/-!
Shallow embedding of the core editing state machine of the `text-editor`
repository (Rust), covering the parts referenced by the claims:

* `src/range.rs`   — `Range`, `vector_max`/`vector_min`, `get_real_start`/`get_real_end`,
  `get_lines_index`, `get_line_length`, `get_ranges_from_drn_line`;
* `src/animation.rs` — `EasingFunction`, `get_easing_fn`, `Animation::{new,start,update}`;
* `src/camera.rs`  — `Camera::{new,move_x,move_y,computed_x,computed_y,transition}`;
* `src/line.rs`    — the line buffer, `get_next_jump`, the text-format pass;
* `src/editor.rs`  — `add_char`, `delete_char`, `move_cursor`, `move_cursor_relative`,
  `delete_selection`, `add_range_to_buffer`, `underline`, `bold`, `switch_lines`.

Modelling conventions, stated once:
* Rust `u32` grid coordinates are modelled as `Nat`; the few places where the
  source performs `as u32` casts of possibly negative `i32` values wrap modulo
  `2^32`, and the model reproduces that wrap explicitly where it can occur.
* Rust `f32` quantities (pixels, durations, easing curves) are modelled as `ℚ`,
  an exact idealisation of the floating-point arithmetic; every constant in the
  source is a short decimal literal, exactly representable as a rational.
* Indexing a `Vec` out of bounds panics in Rust.  On code paths the claims
  exercise, indices are in bounds; the model uses `getD`/no-op variants
  (`List.set`, `List.eraseIdx` leave the list unchanged out of range) so that
  every definition stays total and executable.
* Event senders, animations attached to `Selection`/`Cursor`, clipboard, file
  and menu I/O only produce side effects outside the logical editor state; the
  corresponding fields/calls are dropped from the state-transition model.  The
  `Camera` scroll offset is modelled by its own structure (`Camera` below).
-/

/-- Integer grid coordinate, `speedy2d::dimen::Vector2<u32>`:
`x` is the column, `y` is the row. -/
structure Vec2 where
  x : Nat
  y : Nat
deriving DecidableEq, Repr

/-- `vector_max` from `src/range.rs`: lexicographic maximum, row (`y`) first,
then column (`x`); ties return the first argument. -/
def vector_max (v1 v2 : Vec2) : Vec2 :=
  if v1.y < v2.y then v2
  else if v1.y > v2.y then v1
  else if v1.x < v2.x then v2
  else v1

/-- `vector_min` from `src/range.rs`, defined through `vector_max` exactly as in
the source. -/
def vector_min (v1 v2 : Vec2) : Vec2 :=
  if vector_max v1 v2 = v2 then v1 else v2

/-- Strict document order on grid positions: smaller row wins, then smaller
column.  This is the order `vector_max`/`vector_min` realise. -/
def lexLt (a b : Vec2) : Prop :=
  a.y < b.y ∨ (a.y = b.y ∧ a.x < b.x)

instance : DecidablePred fun p : Vec2 × Vec2 => lexLt p.1 p.2 := by
  intro p; unfold lexLt; infer_instance

instance (a b : Vec2) : Decidable (lexLt a b) := by
  unfold lexLt; infer_instance

/-- `Range` from `src/range.rs`: an order-agnostic, possibly absent pair of
grid positions.  `end` is a Lean keyword, hence the field name `end'`. -/
structure Range where
  start : Option Vec2
  end' : Option Vec2
deriving DecidableEq, Repr

instance : Inhabited Range := ⟨⟨none, none⟩⟩

namespace Range

/-- `Range::default()`: both endpoints absent. -/
def default : Range := ⟨none, none⟩

/-- `Range::new(start, end)`. -/
def new (s e : Vec2) : Range := ⟨some s, some e⟩

/-- `Range::is_valid`: both endpoints present and distinct (raw comparison). -/
def is_valid (r : Range) : Bool :=
  r.start.isSome && r.end'.isSome && decide (r.start ≠ r.end')

/-- `Range::include`: containment test on the raw (un-normalised) endpoints;
false whenever either range is invalid. -/
def «include» (r other : Range) : Bool :=
  if ¬ r.is_valid ∨ ¬ other.is_valid then false
  else decide (vector_min (r.start.getD ⟨0,0⟩) (other.start.getD ⟨0,0⟩) = r.start.getD ⟨0,0⟩)
    && decide (vector_max (r.end'.getD ⟨0,0⟩) (other.end'.getD ⟨0,0⟩) = r.end'.getD ⟨0,0⟩)

/-- `Range::get_real_start`: the lexicographically smaller endpoint, `none` on
an invalid range. -/
def get_real_start (r : Range) : Option Vec2 :=
  if ¬ r.is_valid then none
  else some (vector_min (r.start.getD ⟨0,0⟩) (r.end'.getD ⟨0,0⟩))

/-- `Range::get_real_end`: the lexicographically larger endpoint, `none` on an
invalid range. -/
def get_real_end (r : Range) : Option Vec2 :=
  if ¬ r.is_valid then none
  else some (vector_max (r.start.getD ⟨0,0⟩) (r.end'.getD ⟨0,0⟩))

end Range

/-- A document line, `Line` from `src/line.rs`: the character buffer is a
`Vec<String>` of (normally single-character) tokens; the alignment pixel
offset participates in cursor-position clamping. -/
structure LineM where
  buffer : List String
  alignment_offset : ℚ
deriving DecidableEq, Repr

instance : Inhabited LineM := ⟨⟨[], 0⟩⟩

/-- `get_line_length` from `src/range.rs`. -/
def get_line_length (i : Nat) (lines : List LineM) : Nat :=
  if i + 1 > lines.length then 0
  else (lines.getD i Inhabited.default).buffer.length

namespace Range

/-- `Range::get_lines_index`: one `(col_start, col_end)` pair per spanned row —
a partial span on the first and last row, the full row width in between. -/
def get_lines_index (r : Range) (lines : List LineM) : List (Nat × Nat) :=
  if ¬ r.is_valid then []
  else
    let s := (r.get_real_start).getD ⟨0,0⟩
    let e := (r.get_real_end).getD ⟨0,0⟩
    (List.range (e.y + 1 - s.y)).map fun k =>
      let y := s.y + k
      if y = s.y then
        if s.y = e.y then (s.x, e.x) else (s.x, get_line_length y lines)
      else if y = e.y then (0, e.x)
      else (0, get_line_length y lines)

end Range

/-!  Style-buffer toggle algebra: `Editor::add_range_to_buffer` (src/editor.rs).
The Rust loop iterates `i = len-1, len-2, …, 0` over the snapshot length,
mutating the buffer in place; removals always happen at the current index, so
positions below `i` are unaffected and the loop is equivalent to the countdown
recursion below. -/

/-- One pass of the scan inside `Editor::add_range_to_buffer`, at index `i`
(counting down to 0).  Case 1: exact match — toggle off and stop.  Case 2: the
new range contains the entry — drop the entry, continue.  Case 3: the entry
contains the new range — split the entry, keep the valid pieces, stop.
Otherwise continue; falling out of the loop appends the new range. -/
def add_scan (range : Range) : Nat → List Range → List Range
  | 0, buffer =>
    let br := buffer.getD 0 Range.default
    if range = br then buffer.eraseIdx 0
    else if range.include br then (buffer.eraseIdx 0).concat range
    else if br.include range then
      let before := Range.new (br.get_real_start.getD ⟨0,0⟩) (range.get_real_start.getD ⟨0,0⟩)
      let after := Range.new (range.get_real_end.getD ⟨0,0⟩) (br.get_real_end.getD ⟨0,0⟩)
      let buf1 := if before.is_valid then buffer.concat before else buffer
      let buf2 := if after.is_valid then buf1.concat after else buf1
      buf2.eraseIdx 0
    else buffer.concat range
  | i' + 1, buffer =>
    let br := buffer.getD (i' + 1) Range.default
    if range = br then buffer.eraseIdx (i' + 1)
    else if range.include br then add_scan range i' (buffer.eraseIdx (i' + 1))
    else if br.include range then
      let before := Range.new (br.get_real_start.getD ⟨0,0⟩) (range.get_real_start.getD ⟨0,0⟩)
      let after := Range.new (range.get_real_end.getD ⟨0,0⟩) (br.get_real_end.getD ⟨0,0⟩)
      let buf1 := if before.is_valid then buffer.concat before else buffer
      let buf2 := if after.is_valid then buf1.concat after else buf1
      buf2.eraseIdx (i' + 1)
    else add_scan range i' buffer

/-- `Editor::add_range_to_buffer`: no-op on an invalid range; otherwise scan
the entries from newest to oldest (appending if the loop body never ran or
never returned). -/
def add_range_to_buffer (range : Range) (buffer : List Range) : List Range :=
  if ¬ range.is_valid then buffer
  else
    match buffer.length with
    | 0 => buffer.concat range
    | n + 1 => add_scan range n buffer

/-- The §3/§4.4 style-buffer invariant, as claimed: no stored entry fully
contains another stored entry (in the sense of `Range::include`). -/
def NoContain (buffer : List Range) : Prop :=
  ∀ i j : Fin buffer.length, i ≠ j → (buffer.get i).include (buffer.get j) = false

instance (buffer : List Range) : Decidable (NoContain buffer) := by
  unfold NoContain; infer_instance

/-- Folding a sequence of toggles into an initially given buffer. -/
def add_all (rs : List Range) (buffer : List Range) : List Range :=
  rs.foldl (fun b r => add_range_to_buffer r b) buffer

/-!  Tween engine: `src/animation.rs`.  `f32` is idealised as `ℚ`; the
`UserEventSender` field and the redraw events are side effects outside the
modelled state.  `from`/`to` are Lean keywords, hence `from'`/`to'`. -/

/-- `EasingFunction` from `src/animation.rs`. -/
inductive EasingFunction where
  | Linear
  | SmoothStep
  | SmootherStep
  | EaseIn
  | EaseOut
  | EaseInOut
  | EaseInBack
  | EaseOutBack
deriving DecidableEq, Repr

/-- `get_easing_fn` from `src/animation.rs`, with the closures written as one
pure function (the decimal literals are exact rationals). -/
def get_easing_fn : EasingFunction → ℚ → ℚ
  | .Linear, t => t
  | .SmoothStep, t => (3 - 2 * t) * t ^ 2
  | .SmootherStep, t => (6 * t * t - 15 * t + 10) * t ^ 3
  | .EaseIn, t => t ^ 2
  | .EaseOut, t => 1 - (1 - t) ^ 2
  | .EaseInOut, t => if t < 0.5 then 2 * t * t else 1 - (-2 * t + 2) ^ 2 / 2
  | .EaseInBack, t => 2.70158 * t ^ 3 - 1.70158 * t ^ 2
  | .EaseOutBack, t => 1 + 1.70158 * (t - 1) ^ 3 + 2.70158 * (t - 1) ^ 2

/-- `Animation` from `src/animation.rs` (the boxed easing closure is recovered
from the `easing` tag through `get_easing_fn`; the event sender is dropped). -/
structure Animation where
  from' : ℚ
  to' : ℚ
  duration : ℚ
  easing : EasingFunction
  value : ℚ
  has_started : Bool
  is_paused : Bool
  is_ended : Bool
  is_reversed : Bool
  speed : ℚ
  last_t : ℚ
deriving DecidableEq, Repr

namespace Animation

/-- `Animation::new`. -/
def new (f t dur : ℚ) (easing : EasingFunction) : Animation :=
  { from' := f
    to' := t
    duration := dur
    easing := easing
    value := f
    has_started := false
    is_paused := false
    is_ended := decide (f = t)
    is_reversed := false
    speed := |t - f| / dur
    last_t := 0 }

/-- `Animation::start`. -/
def start (a : Animation) : Animation :=
  { a with is_ended := decide (a.from' = a.to'), has_started := true }

/-- `Animation::update(delta_time)`.  `on_finish` only fires a redraw event;
note that in the boundary branch the source returns without recomputing
`value`. -/
def update (a : Animation) (delta_time : ℚ) : Animation :=
  if ¬ a.has_started ∨ a.is_paused ∨ a.is_ended then a
  else
    let t := min (max (a.last_t + delta_time * a.speed / |a.to' - a.from'|) 0) 1
    if 1 ≤ t ∨ t ≤ 0 then { a with is_ended := true }
    else
      { a with last_t := t, value := a.from' + (a.to' - a.from') * get_easing_fn a.easing t }

/-- Feeding a whole list of `delta_time`s to `update`, in order (the per-tick
sweep in `Editor::update`). -/
def updates (a : Animation) (dts : List ℚ) : Animation :=
  dts.foldl update a

end Animation

/-!  Camera: `src/camera.rs`.  Only the scroll-offset state machine is
modelled; rendering accessors and the event sender are dropped. -/

/-- `Camera` from `src/camera.rs`. -/
structure Camera where
  x : ℚ
  y : ℚ
  width : ℚ
  height : ℚ
  initial_x : ℚ
  initial_y : ℚ
  safe_zone_size : ℚ
  animation_x : Option Animation
  animation_y : Option Animation
deriving DecidableEq, Repr

namespace Camera

/-- `Camera::new(width, height, offset, padding)`. -/
def new (width height : ℚ) (offset : ℚ × ℚ) (padding : ℚ) : Camera :=
  { x := 0
    y := 0
    width := width - 2 * padding - offset.1
    height := height - 2 * padding - offset.2
    initial_x := -padding - offset.1
    initial_y := -padding - offset.2
    safe_zone_size := 30
    animation_x := none
    animation_y := none }

/-- `Camera::computed_x`. -/
def computed_x (c : Camera) : ℚ :=
  match c.animation_x with
  | some a => a.value
  | none => c.x + c.initial_x

/-- `Camera::computed_y`. -/
def computed_y (c : Camera) : ℚ :=
  match c.animation_y with
  | some a => a.value
  | none => c.y + c.initial_y

/-- `Camera::transition(x, y)`: start a fresh 100ms smoother-step tween on
both axes from the currently displayed position. -/
def transition (c : Camera) (x y : ℚ) : Camera :=
  let start_x := match c.animation_x with | some a => a.value | none => c.computed_x
  let start_y := match c.animation_y with | some a => a.value | none => c.computed_y
  let duration : ℚ := 100
  { c with
    animation_x := some (Animation.new start_x x duration .SmootherStep)
    animation_y := some (Animation.new start_y y duration .SmootherStep) }

/-- `Camera::move_x(dx)`: the new offset is `max (x + dx) 0` — clamped below
at 0 only. -/
def move_x (c : Camera) (dx : ℚ) : Camera :=
  let new_x := max (c.x + dx) 0
  let c' := c.transition (new_x + c.initial_x) (c.y + c.initial_y)
  { c' with x := new_x }

/-- `Camera::move_y(dy)`: the new offset is `max (y + dy) 0` — clamped below
at 0 only. -/
def move_y (c : Camera) (dy : ℚ) : Camera :=
  let new_y := max (c.y + dy) 0
  let c' := c.transition (c.x + c.initial_x) (new_y + c.initial_y)
  { c' with y := new_y }

end Camera

/-!  `.drn` style-header parsing: `Range::get_ranges_from_drn_line`
(src/range.rs).  The Rust `coords[0] … coords[3]` indexing panics when a
comma-separated entry has every dash-separated field numeric but fewer than
four of them; the model returns `none` for that panic and `some` otherwise.

Rust `str` primitives (`replace`, `split`, `trim`, `parse`) are modelled as
structurally recursive functions over `List Char` (the library versions use
well-founded recursion, which the kernel cannot evaluate); the `fuel`
argument, always instantiated with the input length, only makes the
recursion structural. -/

/-- `str::replace(pat, rep)`, all non-overlapping occurrences, left to right
(`pat` is never empty at the call sites). -/
def replace_go (pat rep : List Char) : Nat → List Char → List Char
  | 0, l => l
  | _, [] => []
  | fuel + 1, c :: rest =>
    if pat.isPrefixOf (c :: rest) then
      rep ++ replace_go pat rep fuel (List.drop (pat.length - 1) rest)
    else c :: replace_go pat rep fuel rest

/-- `str::replace` on packed strings. -/
def str_replace (s pat rep : String) : String :=
  ⟨replace_go pat.data rep.data s.data.length s.data⟩

/-- The scanning loop of `str::split`: `acc` is the reversed current chunk. -/
def split_on_go (sep : List Char) : Nat → List Char → List Char → List (List Char)
  | 0, l, acc => [acc.reverse ++ l]
  | fuel + 1, l, acc =>
    match l with
    | [] => [acc.reverse]
    | c :: rest =>
      if sep.isPrefixOf (c :: rest) then
        acc.reverse :: split_on_go sep fuel (List.drop (sep.length - 1) rest) []
      else split_on_go sep fuel rest (c :: acc)

/-- `str::split(sep)` collected to a list (`sep` is never empty at the call
sites). -/
def str_split_on (s sep : String) : List String :=
  (split_on_go sep.data s.data.length s.data []).map fun l => ⟨l⟩

/-- `str::trim`: strip leading and trailing whitespace. -/
def str_trim (s : String) : String :=
  ⟨((s.data.dropWhile Char.isWhitespace).reverse.dropWhile Char.isWhitespace).reverse⟩

/-- `str::starts_with`. -/
def str_starts_with (s pat : String) : Bool :=
  pat.data.isPrefixOf s.data

/-- Rust `str::parse::<u32>` (on the digit strings the claims use): digits
only, rejecting the empty string and values outside `u32`. -/
def parse_u32 (s : String) : Option Nat :=
  if s.data ≠ [] ∧ s.data.all Char.isDigit then
    let n := s.data.foldl (fun n c => n * 10 + (c.toNat - '0'.toNat)) 0
    if n < 2 ^ 32 then some n else none
  else none

/-- The `for range_str in line.split(",")` loop body of
`get_ranges_from_drn_line`: stop when the chunk equals the whole line, skip a
chunk when some field fails to parse, panic (`none`) when the parsed fields
number fewer than four. -/
def drn_line_loop (line : String) : List String → List Range → Option (List Range)
  | [], acc => some acc
  | chunk :: rest, acc =>
    if chunk = line then some acc
    else
      let numbers := str_split_on (str_trim chunk) "-"
      let parsed := numbers.map parse_u32
      if parsed.any (fun n => n.isNone) then drn_line_loop line rest acc
      else
        match parsed with
        | some c0 :: some c1 :: some c2 :: some c3 :: _ =>
          drn_line_loop line rest (acc.concat (Range.new ⟨c0, c1⟩ ⟨c2, c3⟩))
        | _ => none

/-- `Range::get_ranges_from_drn_line(pattern, lines)`: find the header line
starting with `pattern` (defaulting to `" "`), strip the pattern, and parse the
comma-separated `r1-c1-r2-c2` entries. -/
def get_ranges_from_drn_line (pattern : String) (lines : List String) : Option (List Range) :=
  let line := str_replace ((lines.find? (fun l => str_starts_with l pattern)).getD " ") pattern ""
  drn_line_loop line (str_split_on line ",") []

/-!  Editor core: the logical state of `Editor` (src/editor.rs) — lines,
cursor, selection, style buffers, modifier snapshot — and its mutation
contract.  The camera, fonts, menu and event sender effects are outside this
state (the camera offset state machine is `Camera` above). -/

/-- The modifier-key snapshot (`speedy2d::window::ModifiersState`). -/
structure Modifiers where
  shift : Bool
  ctrl : Bool
  alt : Bool
  logo : Bool
deriving DecidableEq, Repr

/-- The logical `Editor` state.  `Selection` wraps exactly one `Range` (its
endpoint tweens are render-only), so the selection is stored as a `Range`;
`char_width` is the monospace advance used by cursor-position clamping. -/
structure EditorSt where
  lines : List LineM
  cursorX : Nat
  cursorY : Nat
  selection : Range
  underline_buffer : List Range
  bold_buffer : List Range
  modifiers : Modifiers
  char_width : ℚ
deriving DecidableEq, Repr

/-- Rust `as u32` on an `i32` value: wrap modulo `2^32`. -/
def as_u32 (n : Int) : Nat := (n % (2 ^ 32 : Int)).toNat

/-- Rust `as i32` on an `f32` value: truncation toward zero (`Int` division of
the numerator by the denominator truncates toward zero). -/
def f32_trunc (q : ℚ) : Int := q.num / (q.den : Int)

/-- Rust `i32::clamp(lo, hi)` (the source only calls it with `lo ≤ hi` on the
paths the claims exercise; Rust panics otherwise). -/
def int_clamp (v lo hi : Int) : Int :=
  if v < lo then lo else if v > hi then hi else v

/-- `Vec::swap(i, j)` on a list (Rust panics out of bounds; unexercised). -/
def list_swap (l : List LineM) (i j : Nat) : List LineM :=
  if i < l.length ∧ j < l.length then
    (l.set i (l.getD j Inhabited.default)).set j (l.getD i Inhabited.default)
  else l

/-- In-place update of the element at index `n` (no-op out of bounds, where
Rust would panic). -/
def list_modify (l : List LineM) (n : Nat) (f : LineM → LineM) : List LineM :=
  l.set n (f (l.getD n Inhabited.default))

/-- `Editor::get_valid_cursor_position`: clamp a grid position into the
document — the row into `[0, last_row]`, the column (after the alignment-
offset correction) into `[0, len]` of the destination line. -/
def get_valid_cursor_position (st : EditorSt) (position : Vec2) : Vec2 :=
  let max_y := st.lines.length - 1
  let y := min position.y max_y
  let line := st.lines.getD y Inhabited.default
  let offv : Int := f32_trunc (line.alignment_offset / st.char_width + 0.5)
  let x : Nat := (int_clamp ((position.x : Int) - offv) 0 (line.buffer.length : Int)).toNat
  ⟨x, y⟩

/-- `Editor::move_cursor` (the camera follow-up only mutates camera state). -/
def move_cursor (st : EditorSt) (position : Vec2) : EditorSt :=
  let p := get_valid_cursor_position st position
  { st with cursorX := p.x, cursorY := p.y }

/-- `Editable::begin_selection`: anchor the raw selection start at the
cursor. -/
def begin_selection (st : EditorSt) : EditorSt :=
  { st with selection := { st.selection with start := some ⟨st.cursorX, st.cursorY⟩ } }

/-- `Editable::end_selection`: set the raw selection end at the cursor. -/
def end_selection (st : EditorSt) : EditorSt :=
  { st with selection := { st.selection with end' := some ⟨st.cursorX, st.cursorY⟩ } }

/-- The first two `while` loops pattern of `Line::get_next_jump`
(src/line.rs), backward: decrement while the previous character satisfies
`p`. -/
def scan_back (chars : List Char) (p : Char → Bool) : Nat → Nat
  | 0 => 0
  | i + 1 => if p (chars.getD i ' ') then scan_back chars p i else i + 1

/-- Forward variant: increment while in bounds and the character satisfies
`p`.  The fuel (instantiated with `chars.length`, an upper bound on the
remaining iterations) only makes the recursion structural. -/
def scan_fwd (chars : List Char) (p : Char → Bool) : Nat → Nat → Nat
  | 0, i => i
  | fuel + 1, i =>
    if i < chars.length ∧ p (chars.getD i ' ') then scan_fwd chars p fuel (i + 1) else i

/-- The word-jump delimiter set of `Line::get_next_jump`. -/
def char_jump_list : List Char :=
  [' ', '_', '-', '/', '(', ')', '[', ']', '{', '}', '"', '\'']

/-- `Line::get_next_jump(index)`: skip a delimiter run, then the adjacent
token run, on both sides of `index`. -/
def get_next_jump (l : LineM) (index : Nat) : Nat × Nat :=
  let chars := (String.join l.buffer).toList
  let isJump := fun c => decide (c ∈ char_jump_list)
  let s1 := scan_back chars isJump index
  let e1 := scan_fwd chars isJump chars.length index
  let s2 := scan_back chars (fun c => ¬ isJump c) s1
  let e2 := scan_fwd chars (fun c => ¬ isJump c) chars.length e1
  (s2, e2)

/-- `Editor::switch_lines(dir)`: swap the current line (or the selected line
span) with its neighbour in the move direction, shift the selection rows by
`dir`, and move the cursor along. -/
def switch_lines (st : EditorSt) (dir : Int) : EditorSt :=
  let cursor_pos : Vec2 := ⟨st.cursorX, st.cursorY⟩
  let index_start := (st.selection.get_real_start.getD cursor_pos).y
  let index_end := (st.selection.get_real_end.getD cursor_pos).y
  let lines' :=
    if dir < 0 then
      (List.range (index_end + 1 - index_start)).foldl
        (fun ls k =>
          let i := index_start + k
          list_swap ls i ((i : Int) - 1).natAbs) st.lines
    else if dir > 0 then
      (List.range (index_end - index_start + 1)).foldl
        (fun ls k => list_swap ls (index_end - k) (index_end - k + 1)) st.lines
    else st.lines
  let st1 := { st with lines := lines' }
  let st2 :=
    if st1.selection.is_valid then
      let rs := st1.selection.get_real_start.getD ⟨0,0⟩
      let sel1 : Range := { st1.selection with start := some ⟨rs.x, as_u32 ((rs.y : Int) + dir)⟩ }
      let re := sel1.get_real_end.getD ⟨0,0⟩
      let sel2 : Range := { sel1 with end' := some ⟨re.x, as_u32 ((re.y : Int) + dir)⟩ }
      { st1 with selection := sel2 }
    else st1
  move_cursor st2 ⟨st2.cursorX, as_u32 ((st2.cursorY : Int) + dir)⟩

/-- `Editable::move_cursor_relative(rel_x, rel_y)` from src/editor.rs:
modifier layering (Shift anchor, Alt word jump, Cmd+Ctrl line swap, Cmd
line/file jump), collapse of a plain move onto a live selection, horizontal
roll-over onto the adjacent row, clamping into the destination line, and the
trailing selection update. -/
def move_cursor_relative (st : EditorSt) (rel_x rel_y : Int) : EditorSt :=
  let max_y : Int := (st.lines.length : Int) - 1
  let new_x0 : Int := (st.cursorX : Int) + rel_x
  let new_y0 : Int := int_clamp ((st.cursorY : Int) + rel_y) 0 max_y
  let st1 :=
    if st.modifiers.shift ∧ st.selection.get_real_start = none then
      { st with selection := { st.selection with start := some ⟨st.cursorX, st.cursorY⟩ } }
    else st
  let step2 : EditorSt × Int × Int :=
    if st1.modifiers.alt then
      let se := get_next_jump (st1.lines.getD st1.cursorY Inhabited.default) st1.cursorX
      let nx :=
        if rel_x < 0 ∧ se.1 ≠ st1.cursorX then (se.1 : Int)
        else if rel_x > 0 ∧ se.2 ≠ st1.cursorX then (se.2 : Int)
        else new_x0
      (st1, nx, new_y0)
    else if st1.modifiers.logo then
      if st1.modifiers.ctrl then (switch_lines st1 rel_y, new_x0, new_y0)
      else
        let nx :=
          if rel_x < 0 then 0
          else if rel_x > 0 then ((st1.lines.getD st1.cursorY Inhabited.default).buffer.length : Int)
          else new_x0
        let ny :=
          if rel_y < 0 then 0
          else if rel_y > 0 then (st1.lines.length : Int) - 1
          else new_y0
        (st1, nx, ny)
    else (st1, new_x0, new_y0)
  let st2 := step2.1
  let new_x := step2.2.1
  let new_y := step2.2.2
  if st2.selection.is_valid ∧ ¬ st2.modifiers.shift ∧ ¬ (st2.modifiers.logo ∧ st2.modifiers.ctrl)
      ∧ (rel_x > 0 ∨ rel_y > 0) then
    let st3 := move_cursor st2 (st2.selection.get_real_end.getD ⟨0,0⟩)
    { st3 with selection := Range.default }
  else if st2.selection.is_valid ∧ ¬ st2.modifiers.shift ∧ ¬ (st2.modifiers.logo ∧ st2.modifiers.ctrl)
      ∧ (rel_x < 0 ∨ rel_y < 0) then
    let st3 := move_cursor st2 (st2.selection.get_real_start.getD ⟨0,0⟩)
    { st3 with selection := Range.default }
  else
    let moved : Option EditorSt :=
      if new_x < 0 then
        if st2.cursorY = 0 then none
        else
          let previous_line_buffer_size :=
            (st2.lines.getD (st2.cursorY - 1) Inhabited.default).buffer.length
          some { st2 with cursorX := previous_line_buffer_size, cursorY := st2.cursorY - 1 }
      else if new_x.toNat > (st2.lines.getD st2.cursorY Inhabited.default).buffer.length then
        if st2.cursorY ≥ st2.lines.length - 1 then none
        else some { st2 with cursorX := 0, cursorY := st2.cursorY + 1 }
      else
        let new_buffer_len : Int := ((st2.lines.getD new_y.toNat Inhabited.default).buffer.length : Int)
        if new_x ≥ new_buffer_len then
          some { st2 with cursorX := new_buffer_len.toNat, cursorY := new_y.toNat }
        else
          some { st2 with cursorX := new_x.toNat, cursorY := new_y.toNat }
    match moved with
    | none => st2
    | some st3 =>
      if st3.modifiers.shift then
        { st3 with selection := { st3.selection with end' := some ⟨st3.cursorX, st3.cursorY⟩ } }
      else if (|rel_x| > 0 ∨ |rel_y| > 0) ∧ st3.selection.is_valid
          ∧ ¬ (st3.modifiers.logo ∧ st3.modifiers.ctrl) then
        { st3 with selection := Range.default }
      else st3

/-!  `Editable::delete_selection` (src/editor.rs): drain the per-row column
slices given by `get_lines_index`, then walk the touched rows from last to
first removing the ones whose buffers are empty — guarded only by
`lines.len() > 1` — and finally park the cursor at the selection's real
start and clear the selection. -/

/-- The drain phase of `delete_selection`: for the `i`-th touched row, drain
`[min(a,b), max(a,b))` from its buffer. -/
def drain_for (st : EditorSt) : List LineM :=
  let initial_i :=
    min (st.selection.get_real_start.getD ⟨0,0⟩).y (st.selection.get_real_end.getD ⟨0,0⟩).y
  let lines_indices := st.selection.get_lines_index st.lines
  lines_indices.enum.foldl
    (fun ls p =>
      let s := min p.2.1 p.2.2
      let e := max p.2.1 p.2.2
      list_modify ls (initial_i + p.1) (fun l => { l with buffer := l.buffer.take s ++ l.buffer.drop e }))
    st.lines

/-- The removal phase of `delete_selection`, one step per touched index (the
source iterates the touched rows from the last to the first): remove the row
when its buffer is empty and more than one line remains. -/
def remove_empties : List LineM → List Nat → List LineM
  | lines, [] => lines
  | lines, idx :: rest =>
    remove_empties
      (if (lines.getD idx Inhabited.default).buffer.isEmpty ∧ lines.length > 1
       then lines.eraseIdx idx else lines)
      rest

/-- The indices visited by the removal loop: `initial_i + n - 1 - i` for
`i = 0, …, n-1`. -/
def removal_indices (initial_i n : Nat) : List Nat :=
  (List.range n).map fun i => initial_i + n - 1 - i

/-- `Editable::delete_selection`. -/
def delete_selection (st : EditorSt) : EditorSt :=
  if st.selection.is_valid then
    let initial_i :=
      min (st.selection.get_real_start.getD ⟨0,0⟩).y (st.selection.get_real_end.getD ⟨0,0⟩).y
    let lines_indices := st.selection.get_lines_index st.lines
    let lines2 := remove_empties (drain_for st) (removal_indices initial_i lines_indices.length)
    let selection_start := st.selection.get_real_start.getD ⟨0,0⟩
    let st1 := move_cursor { st with lines := lines2 } ⟨selection_start.x, selection_start.y⟩
    { st1 with selection := Range.default }
  else st

/-- The lines right after the drain phase of `delete_selection` (equal to the
stored lines when the selection is invalid); the removal phase of
`delete_selection` starts from exactly this list. -/
def drained_lines (st : EditorSt) : List LineM :=
  if st.selection.is_valid then drain_for st else st.lines

/-!  Text insertion and deletion: `Editable::add_char` / `delete_char`
(src/editor.rs), plus the `Font::format` ligature pass (src/font.rs) that
`update_text_layout` applies to every line buffer. -/

/-- `Font::format` (src/font.rs): the arrow/comparison ligature
substitutions. -/
def font_format (text : String) : String :=
  str_replace (str_replace (str_replace (str_replace (str_replace (str_replace
    (str_replace text "-->" "→") "->" "→") "<--" "←") "<-" "←") "!=" "≠") "<=" "≤") ">=" "≥"

/-- The buffer/length part of `Line::update_text_layout` (src/line.rs): when
the formatted text differs, re-split the buffer into its characters and
report the length difference. -/
def line_update_text_layout (l : LineM) : LineM × Int :=
  let string := String.join l.buffer
  let font_formatted_string := font_format string
  if string ≠ font_formatted_string then
    ({ l with buffer := font_formatted_string.toList.map (fun c => String.singleton c) },
      (l.buffer.length : Int) - (font_formatted_string.toList.length : Int))
  else (l, 0)

/-- `Editor::update_text_layout`: reformat each line, then shift the cursor
column left by the length difference of the cursor's row. -/
def update_text_layout (st : EditorSt) : EditorSt :=
  let pairs := st.lines.map line_update_text_layout
  let difference := ((pairs.getD st.cursorY (Inhabited.default, 0))).2
  { st with
    lines := pairs.map Prod.fst
    cursorX := as_u32 ((st.cursorX : Int) - difference) }

/-- `Editable::add_char(c)` (src/editor.rs).  With Cmd held the call is
routed to `Editor::shortcut`, a dispatcher over menu/file/clipboard actions
outside this model (modelled as the identity; every theorem below runs with
`logo = false`).  Otherwise: auto-pair openers keep the selection and get
their closer inserted after the selection end (or cursor); any other
character first deletes the selection; the opener/character is inserted at
the selection start (or cursor) column of the *current* row; the cursor then
advances one column and the selection is cleared. -/
def add_char (st : EditorSt) (c : String) : EditorSt :=
  if st.modifiers.logo then st
  else
    let after :=
      if c = "(" then ")"
      else if c = "[" then "]"
      else if c = "\x7b" then "\x7d"
      else if c = "\"" then "\""
      else ""
    let st1 := if after = "" then delete_selection st else st
    let pos :=
      if st1.selection.is_valid then st1.selection.get_real_start.getD ⟨0,0⟩
      else ⟨st1.cursorX, st1.cursorY⟩
    let st2 :=
      { st1 with
        lines := list_modify st1.lines st1.cursorY
          (fun l => { l with buffer := l.buffer.insertIdx pos.x c }) }
    let st3 :=
      if after ≠ "" then
        let after_pos :=
          if st2.selection.is_valid then st2.selection.get_real_end.getD ⟨0,0⟩
          else ⟨st2.cursorX, st2.cursorY⟩
        { st2 with
          lines := list_modify st2.lines after_pos.y
            (fun l => { l with buffer := l.buffer.insertIdx (after_pos.x + 1) after }) }
      else st2
    let st4 := move_cursor_relative st3 1 0
    { st4 with selection := Range.default }

/-- `Editable::delete_char` (src/editor.rs).  Alt/Cmd first synthesise a
"to previous word / line start" selection; a live selection is deleted;
at column 0 the line is merged into the previous one (row 0 never); else the
character left of the cursor is removed, together with the one at the cursor
when the two are equal and in the opener list (the auto-pair deletion —
note the equality test). -/
def delete_char (st : EditorSt) : EditorSt :=
  let st1 :=
    if st.modifiers.alt ∨ st.modifiers.logo then
      end_selection (move_cursor_relative (begin_selection st) (-1) 0)
    else st
  if st1.selection.is_valid then delete_selection st1
  else
    let pos := st1.cursorX
    let row := st1.cursorY
    if pos = 0 then
      if row = 0 then st1
      else
        let buffer := (st1.lines.getD row Inhabited.default).buffer
        let previous_line_buffer_previous_size :=
          (st1.lines.getD (row - 1) Inhabited.default).buffer.length
        let lines1 := list_modify st1.lines (row - 1)
          (fun l => { l with buffer := l.buffer ++ buffer })
        let st2 :=
          { st1 with
            lines := lines1.eraseIdx row
            cursorX := previous_line_buffer_previous_size
            cursorY := st1.cursorY - 1 }
        update_text_layout { st2 with selection := Range.default }
    else
      let buffer := (st1.lines.getD row Inhabited.default).buffer
      let buffer1 :=
        if buffer.length > pos
            ∧ buffer.getD (pos - 1) "" = buffer.getD pos ""
            ∧ buffer.getD (pos - 1) "" ∈ ["(", "[", "\x7b", "\""] then
          buffer.eraseIdx pos
        else buffer
      let buffer2 := buffer1.eraseIdx (pos - 1)
      let st2 := { st1 with lines := list_modify st1.lines row (fun l => { l with buffer := buffer2 }) }
      let st3 := move_cursor_relative st2 (-1) 0
      update_text_layout { st3 with selection := Range.default }

/-- `Editor::underline`: toggle the selection's range in the underline style
buffer (`set_dirty` only emits an event). -/
def underline (st : EditorSt) : EditorSt :=
  { st with underline_buffer := add_range_to_buffer st.selection st.underline_buffer }

/-- `Editor::bold`: toggle the selection's range in the bold style buffer. -/
def bold (st : EditorSt) : EditorSt :=
  { st with bold_buffer := add_range_to_buffer st.selection st.bold_buffer }

/-!  ## Claim theorems -/

/-- C6: Of the fixed easing catalogue, seven curves satisfy `f 0 = 0` and
`f 1 = 1`, but `EaseOutBack` evaluates to `2` at `0` (its two magic constants
are swapped relative to its `EaseInBack` sibling), contradicting the claimed
`f(0) = 0`; at `1` it is correct. -/
theorem easing_catalogue_endpoints :
    (get_easing_fn .Linear 0 = 0 ∧ get_easing_fn .Linear 1 = 1) ∧
    (get_easing_fn .SmoothStep 0 = 0 ∧ get_easing_fn .SmoothStep 1 = 1) ∧
    (get_easing_fn .SmootherStep 0 = 0 ∧ get_easing_fn .SmootherStep 1 = 1) ∧
    (get_easing_fn .EaseIn 0 = 0 ∧ get_easing_fn .EaseIn 1 = 1) ∧
    (get_easing_fn .EaseOut 0 = 0 ∧ get_easing_fn .EaseOut 1 = 1) ∧
    (get_easing_fn .EaseInOut 0 = 0 ∧ get_easing_fn .EaseInOut 1 = 1) ∧
    (get_easing_fn .EaseInBack 0 = 0 ∧ get_easing_fn .EaseInBack 1 = 1) ∧
    (get_easing_fn .EaseOutBack 1 = 1 ∧ get_easing_fn .EaseOutBack 0 = 2) := by
  norm_num [get_easing_fn]

/-- C7 (counterexample): `Camera::move_x` applies no upper clamp — from offset
`0`, a viewport of width `100` scrolls to offset `1000`, beyond any
`[0, extent]` bound. -/
theorem camera_move_no_upper_clamp_cex :
    ((Camera.new 100 100 (0, 0) 0).move_x 1000).x = 1000 ∧
    (Camera.new 100 100 (0, 0) 0).width = 100 ∧ (100 : ℚ) < 1000 := by
  refine ⟨?_, ?_, by norm_num⟩ <;> norm_num [Camera.new, Camera.move_x, Camera.transition]

/-- C7 (amended): `move_x`/`move_y` set the offset to
`max (previous + delta) 0`: the result is never negative, but there is no
upper clamp. -/
theorem camera_move_clamps_below_only (c : Camera) (d : ℚ) :
    (c.move_x d).x = max (c.x + d) 0 ∧ 0 ≤ (c.move_x d).x ∧
    (c.move_y d).y = max (c.y + d) 0 ∧ 0 ≤ (c.move_y d).y := by
  refine ⟨rfl, ?_, rfl, ?_⟩ <;> exact le_max_right _ _

/-- C8: `get_ranges_from_drn_line` panics (models as `none`) on the malformed
entry `1-2-3,` — every dash field is numeric but `coords[3]` is out of
bounds — while an absent header yields `[]` and a well-formed header
parses. -/
theorem drn_header_parsing_eval :
    get_ranges_from_drn_line "#u:" ["#u: 1-2-3,"] = none ∧
    get_ranges_from_drn_line "#u:" ["hello world"] = some [] ∧
    get_ranges_from_drn_line "#u:" ["#u: 0-0-5-0,1-2-3-4,", "text"] =
      some [Range.new ⟨0, 0⟩ ⟨5, 0⟩, Range.new ⟨1, 2⟩ ⟨3, 4⟩] := by
  refine ⟨?_, ?_, ?_⟩ <;> decide

/-- C10: `underline`/`bold` with an invalid selection (absent endpoint or
degenerate) leave the corresponding style buffer — and the whole editor
state — unchanged, because `add_range_to_buffer` returns immediately. -/
theorem underline_bold_invalid_noop (st : EditorSt)
    (h : st.selection.is_valid = false) : underline st = st ∧ bold st = st := by
  unfold underline bold add_range_to_buffer
  simp [h]

/-- A concrete state with a degenerate (equal-endpoint) selection and a
nonempty underline buffer. -/
def invalid_sel_state : EditorSt :=
  ⟨[⟨["a"], 0⟩], 0, 0, Range.new ⟨1, 0⟩ ⟨1, 0⟩,
    [Range.new ⟨0, 0⟩ ⟨1, 0⟩], [], ⟨false, false, false, false⟩, 1⟩

/-- Witness for `underline_bold_invalid_noop` at `invalid_sel_state`. -/
theorem underline_bold_invalid_noop_witness :
    invalid_sel_state.selection.is_valid = false ∧
    underline invalid_sel_state = invalid_sel_state ∧
    bold invalid_sel_state = invalid_sel_state :=
  ⟨by decide, underline_bold_invalid_noop invalid_sel_state (by decide)⟩

/-- C4: toggling the same valid range twice on an initially empty style
buffer returns it to empty — the first call appends the range, the second
hits the exact-match case and removes it. -/
theorem style_toggle_twice_empty (r : Range) (h : r.is_valid = true) :
    add_range_to_buffer r (add_range_to_buffer r []) = [] := by
  unfold add_range_to_buffer
  simp only [h, Bool.not_eq_true, Bool.true_eq_false, if_false, ite_false]
  simp [add_scan, List.getD]

/-- Witness for `style_toggle_twice_empty` at the single-row range
`(0,0)-(1,0)`. -/
theorem style_toggle_twice_empty_witness :
    (Range.new ⟨0, 0⟩ ⟨1, 0⟩).is_valid = true ∧
    add_range_to_buffer (Range.new ⟨0, 0⟩ ⟨1, 0⟩)
      (add_range_to_buffer (Range.new ⟨0, 0⟩ ⟨1, 0⟩) []) = [] :=
  ⟨by decide, style_toggle_twice_empty _ (by decide)⟩


/-- C3 (counterexample): three toggles of valid, normalised, single-row
ranges — `[1,6]`, then `[0,3]`, then `[3,4]` — leave the buffer as
`[[0,3], [1,3], [4,6]]`, whose first entry fully contains the split piece
`[1,3]`: the claimed no-containment invariant fails on a reachable buffer. -/
theorem style_buffer_containment_cex :
    (∀ r ∈ [Range.new ⟨1, 0⟩ ⟨6, 0⟩, Range.new ⟨0, 0⟩ ⟨3, 0⟩, Range.new ⟨3, 0⟩ ⟨4, 0⟩],
      r.is_valid = true) ∧
    ¬ NoContain
      (add_all [Range.new ⟨1, 0⟩ ⟨6, 0⟩, Range.new ⟨0, 0⟩ ⟨3, 0⟩, Range.new ⟨3, 0⟩ ⟨4, 0⟩] []) := by
  decide

/-- Splitting membership in a conditionally appended singleton. -/
theorem mem_of_mem_if_concat {r piece : Range} {l : List Range} {c : Bool}
    (h : r ∈ (if c then l.concat piece else l)) : r ∈ l ∨ (r = piece ∧ c = true) := by
  by_cases hc : c = true
  · rw [if_pos hc, List.concat_eq_append] at h
    rcases List.mem_append.mp h with h | h
    · exact Or.inl h
    · exact Or.inr ⟨List.mem_singleton.mp h, hc⟩
  · rw [if_neg hc] at h
    exact Or.inl h

/-- Every range in the scanned buffer is either an original entry, the new
range itself, or a split piece that passed its own validity guard. -/
theorem mem_add_scan (range : Range) :
    ∀ (i : Nat) (buffer : List Range) (r : Range),
      r ∈ add_scan range i buffer → r ∈ buffer ∨ r = range ∨ r.is_valid = true := by
  intro i
  induction i with
  | zero =>
    intro buffer r hr
    simp only [add_scan] at hr
    split at hr
    · exact Or.inl ((List.eraseIdx_sublist _ _).subset hr)
    · split at hr
      · simp only [List.concat_eq_append, List.mem_append, List.mem_singleton] at hr
        rcases hr with hr | hr
        · exact Or.inl ((List.eraseIdx_sublist _ _).subset hr)
        · exact Or.inr (Or.inl hr)
      · split at hr
        · have hm := (List.eraseIdx_sublist _ _).subset hr
          rcases mem_of_mem_if_concat hm with hm1 | hm1
          · rcases mem_of_mem_if_concat hm1 with hm2 | hm2
            · exact Or.inl hm2
            · exact Or.inr (Or.inr (hm2.1 ▸ hm2.2))
          · exact Or.inr (Or.inr (hm1.1 ▸ hm1.2))
        · simp only [List.concat_eq_append, List.mem_append, List.mem_singleton] at hr
          rcases hr with hr | hr
          · exact Or.inl hr
          · exact Or.inr (Or.inl hr)
  | succ i' ih =>
    intro buffer r hr
    simp only [add_scan] at hr
    split at hr
    · exact Or.inl ((List.eraseIdx_sublist _ _).subset hr)
    · split at hr
      · rcases ih _ _ hr with hm | hm
        · exact Or.inl ((List.eraseIdx_sublist _ _).subset hm)
        · exact Or.inr hm
      · split at hr
        · have hm := (List.eraseIdx_sublist _ _).subset hr
          rcases mem_of_mem_if_concat hm with hm1 | hm1
          · rcases mem_of_mem_if_concat hm1 with hm2 | hm2
            · exact Or.inl hm2
            · exact Or.inr (Or.inr (hm2.1 ▸ hm2.2))
          · exact Or.inr (Or.inr (hm1.1 ▸ hm1.2))
        · exact ih _ _ hr

/-- A toggle never stores an invalid range: the entries of
`add_range_to_buffer range buffer` are valid whenever those of `buffer`
were. -/
theorem add_range_to_buffer_all_valid (range : Range) (buffer : List Range)
    (hb : ∀ r ∈ buffer, r.is_valid = true) :
    ∀ r ∈ add_range_to_buffer range buffer, r.is_valid = true := by
  intro r hr
  by_cases hv : range.is_valid = true
  · unfold add_range_to_buffer at hr
    rw [if_neg (by simp [hv])] at hr
    rcases hlen : buffer.length with _ | n
    · rw [hlen] at hr
      simp only [List.concat_eq_append, List.mem_append, List.mem_singleton] at hr
      rcases hr with hr | hr
      · exact hb r hr
      · exact hr ▸ hv
    · rw [hlen] at hr
      rcases mem_add_scan range n buffer r hr with hm | hm | hm
      · exact hb r hm
      · exact hm ▸ hv
      · exact hm
  · unfold add_range_to_buffer at hr
    rw [if_pos (by simp [hv])] at hr
    exact hb r hr

/-- Valid-entry invariant for whole toggle sequences. -/
theorem add_all_all_valid :
    ∀ (rs : List Range) (buffer : List Range),
      (∀ r ∈ buffer, r.is_valid = true) → ∀ r ∈ add_all rs buffer, r.is_valid = true := by
  intro rs
  induction rs with
  | nil => intro buffer hb; exact hb
  | cons a t ih =>
    intro buffer hb
    exact ih (add_range_to_buffer a buffer) (add_range_to_buffer_all_valid a buffer hb)

/-- C3 (amended): after a single toggle on the empty buffer no stored entry
contains another (the buffer has at most one entry); the invariant does not
survive longer sequences (see the counterexample), but every reachable
buffer stores only valid ranges. -/
theorem style_buffer_amended :
    (∀ r : Range, NoContain (add_range_to_buffer r [])) ∧
    (∀ rs : List Range, ∀ r ∈ add_all rs [], r.is_valid = true) := by
  constructor
  · intro r i j hij
    exfalso
    apply hij
    have hlen : (add_range_to_buffer r []).length ≤ 1 := by
      by_cases hv : r.is_valid = true <;> simp [add_range_to_buffer, hv]
    have hi := i.isLt
    have hj := j.isLt
    apply Fin.ext
    omega
  · intro rs
    exact add_all_all_valid rs [] (by intro r hr; cases hr)

/-- Witness for `style_buffer_amended`: the singleton buffer after one toggle
stores a valid range. -/
theorem style_buffer_amended_witness : (Range.new ⟨0, 0⟩ ⟨1, 0⟩).is_valid = true :=
  style_buffer_amended.2 [Range.new ⟨0, 0⟩ ⟨1, 0⟩] (Range.new ⟨0, 0⟩ ⟨1, 0⟩) (by decide)

/-- Erasing an element whose buffer is empty does not change the nonempty-row
filtering. -/
theorem filter_eraseIdx_of_empty :
    ∀ (l : List LineM) (i : Nat), (l.getD i Inhabited.default).buffer.isEmpty = true →
      (l.eraseIdx i).filter (fun x => !x.buffer.isEmpty)
        = l.filter (fun x => !x.buffer.isEmpty) := by
  intro l
  induction l with
  | nil => intro i _; rfl
  | cons a t ih =>
    intro i h
    cases i with
    | zero =>
      have ha : a.buffer.isEmpty = true := by simpa using h
      simp [List.eraseIdx, List.filter_cons, ha]
    | succ j =>
      have h' : (t.getD j Inhabited.default).buffer.isEmpty = true := by simpa using h
      simp only [List.eraseIdx, List.filter_cons, ih j h']

/-- The removal loop never drops the last remaining line. -/
theorem remove_empties_length (idxs : List Nat) :
    ∀ lines : List LineM, 1 ≤ lines.length → 1 ≤ (remove_empties lines idxs).length := by
  induction idxs with
  | nil => intro lines h; exact h
  | cons idx rest ih =>
    intro lines h
    simp only [remove_empties]
    apply ih
    split
    · next hc =>
      rw [List.length_eraseIdx]
      have := hc.2
      split <;> omega
    · exact h

/-- The removal loop only deletes rows: the result is a sublist of its
input. -/
theorem remove_empties_sublist (idxs : List Nat) :
    ∀ lines : List LineM, List.Sublist (remove_empties lines idxs) lines := by
  induction idxs with
  | nil => intro lines; exact List.Sublist.refl _
  | cons idx rest ih =>
    intro lines
    simp only [remove_empties]
    refine List.Sublist.trans (ih _) ?_
    split
    · exact List.eraseIdx_sublist _ _
    · exact List.Sublist.refl _

/-- The removal loop deletes only rows whose buffers are empty: the nonempty
rows survive unchanged. -/
theorem remove_empties_filter (idxs : List Nat) :
    ∀ lines : List LineM,
      (remove_empties lines idxs).filter (fun x => !x.buffer.isEmpty)
        = lines.filter (fun x => !x.buffer.isEmpty) := by
  induction idxs with
  | nil => intro lines; rfl
  | cons idx rest ih =>
    intro lines
    simp only [remove_empties]
    rw [ih]
    split
    · next hc => exact filter_eraseIdx_of_empty lines idx hc.1
    · rfl

/-- The drain phase only rewrites buffers in place, preserving the number of
rows. -/
theorem length_drain_fold (ii : Nat) :
    ∀ (ps : List (Nat × Nat × Nat)) (ls : List LineM),
      (ps.foldl (fun ls p =>
        list_modify ls (ii + p.1)
          (fun l => { l with
            buffer := l.buffer.take (min p.2.1 p.2.2) ++ l.buffer.drop (max p.2.1 p.2.2) })) ls).length
      = ls.length := by
  intro ps
  induction ps with
  | nil => intro ls; rfl
  | cons a t ih =>
    intro ls
    simp only [List.foldl]
    rw [ih]
    simp [list_modify]

/-- `drain_for` preserves the number of rows. -/
theorem drain_for_length (st : EditorSt) : (drain_for st).length = st.lines.length := by
  unfold drain_for
  exact length_drain_fold _ _ _

/-- C1 (amended): `delete_selection` removes only touched rows whose buffers
are empty after draining the selected span (the rows that are nonempty after
the drain survive, in order), and it never removes the last remaining row —
the document always retains at least one line.  Row 0 as such is not
protected (see the counterexample). -/
theorem delete_selection_keeps_a_row (st : EditorSt) (h : 1 ≤ st.lines.length) :
    1 ≤ (delete_selection st).lines.length ∧
    List.Sublist (delete_selection st).lines (drained_lines st) ∧
    (delete_selection st).lines.filter (fun l => !l.buffer.isEmpty)
      = (drained_lines st).filter (fun l => !l.buffer.isEmpty) := by
  by_cases hv : st.selection.is_valid = true
  · have hlines : (delete_selection st).lines
        = remove_empties (drain_for st)
            (removal_indices
              (min (st.selection.get_real_start.getD ⟨0,0⟩).y
                (st.selection.get_real_end.getD ⟨0,0⟩).y)
              (st.selection.get_lines_index st.lines).length) := by
      simp [delete_selection, hv, move_cursor]
    have hd : drained_lines st = drain_for st := by simp [drained_lines, hv]
    rw [hlines, hd]
    refine ⟨?_, remove_empties_sublist _ _, remove_empties_filter _ _⟩
    apply remove_empties_length
    rw [drain_for_length]
    exact h
  · have heq : delete_selection st = st := by simp [delete_selection, hv]
    have hd : drained_lines st = st.lines := by simp [drained_lines, hv]
    rw [heq, hd]
    exact ⟨h, List.Sublist.refl _, rfl⟩

/-- A two-row document with a valid selection covering exactly row 0. -/
def two_row_state : EditorSt :=
  ⟨[⟨["a", "b"], 0⟩, ⟨["c", "d"], 0⟩], 0, 0, Range.new ⟨0, 0⟩ ⟨2, 0⟩, [], [],
    ⟨false, false, false, false⟩, 1⟩

/-- C1 (counterexample): on `["ab", "cd"]` with the valid selection
`(0,0)-(2,0)`, `delete_selection` drains row 0 empty and then removes it —
the guard is only `lines.len() > 1`, so row 0 is *not* protected: the result
is the single row `"cd"`. -/
theorem delete_selection_removes_row_zero_cex :
    two_row_state.selection.is_valid = true ∧
    two_row_state.lines.map LineM.buffer = [["a", "b"], ["c", "d"]] ∧
    (delete_selection two_row_state).lines.map LineM.buffer = [["c", "d"]] := by
  refine ⟨by decide, by decide, by decide⟩

/-- Witness for `delete_selection_keeps_a_row` at `two_row_state`. -/
theorem delete_selection_keeps_a_row_witness :
    1 ≤ two_row_state.lines.length ∧
    (1 ≤ (delete_selection two_row_state).lines.length ∧
      List.Sublist (delete_selection two_row_state).lines (drained_lines two_row_state) ∧
      (delete_selection two_row_state).lines.filter (fun l => !l.buffer.isEmpty)
        = (drained_lines two_row_state).filter (fun l => !l.buffer.isEmpty)) :=
  ⟨by decide, delete_selection_keeps_a_row two_row_state (by decide)⟩

/-- For distinct grid positions, `vector_min`/`vector_max` return the two
inputs in strict document order. -/
theorem vector_minmax_cases (s e : Vec2) (h : s ≠ e) :
    lexLt (vector_min s e) (vector_max s e) ∧
    ((vector_min s e = s ∧ vector_max s e = e) ∨
      (vector_min s e = e ∧ vector_max s e = s)) := by
  rcases Nat.lt_trichotomy s.y e.y with hy | hy | hy
  · have hmax : vector_max s e = e := by unfold vector_max; rw [if_pos hy]
    have hmin : vector_min s e = s := by unfold vector_min; rw [hmax, if_pos rfl]
    rw [hmin, hmax]
    exact ⟨Or.inl hy, Or.inl ⟨rfl, rfl⟩⟩
  · by_cases hx : s.x < e.x
    · have hmax : vector_max s e = e := by
        unfold vector_max
        rw [if_neg (by omega), if_neg (by omega), if_pos hx]
      have hmin : vector_min s e = s := by unfold vector_min; rw [hmax, if_pos rfl]
      rw [hmin, hmax]
      exact ⟨Or.inr ⟨hy, hx⟩, Or.inl ⟨rfl, rfl⟩⟩
    · have hne : s.x ≠ e.x := by
        intro hxx
        apply h
        cases s; cases e
        simp_all
      have hxe : e.x < s.x := by omega
      have hmax : vector_max s e = s := by
        unfold vector_max
        rw [if_neg (by omega), if_neg (by omega), if_neg hx]
      have hmin : vector_min s e = e := by unfold vector_min; rw [hmax, if_neg h]
      rw [hmin, hmax]
      exact ⟨Or.inr ⟨hy.symm, hxe⟩, Or.inr ⟨rfl, rfl⟩⟩
  · have hmax : vector_max s e = s := by
      unfold vector_max
      rw [if_neg (by omega), if_pos hy]
    have hmin : vector_min s e = e := by unfold vector_min; rw [hmax, if_neg h]
    rw [hmin, hmax]
    exact ⟨Or.inl hy, Or.inr ⟨rfl, rfl⟩⟩

/-- C9: `get_real_start`/`get_real_end` return `none` exactly on invalid
ranges (absent or equal endpoints) and never error; on a valid range they
return the two endpoints reordered into document order — smaller row first,
then smaller column — so the real start strictly precedes the real end. -/
theorem range_real_endpoints (r : Range) :
    (r.get_real_start = none ↔ r.is_valid = false) ∧
    (r.get_real_end = none ↔ r.is_valid = false) ∧
    (∀ s e : Vec2, r.start = some s → r.end' = some e → s ≠ e →
      r.get_real_start = some (vector_min s e) ∧
      r.get_real_end = some (vector_max s e) ∧
      lexLt (vector_min s e) (vector_max s e) ∧
      ((vector_min s e = s ∧ vector_max s e = e) ∨
        (vector_min s e = e ∧ vector_max s e = s))) := by
  refine ⟨?_, ?_, ?_⟩
  · cases hb : r.is_valid
    · simp [Range.get_real_start, hb]
    · simp [Range.get_real_start, hb]
  · cases hb : r.is_valid
    · simp [Range.get_real_end, hb]
    · simp [Range.get_real_end, hb]
  · intro s e hs he hne
    have hv : r.is_valid = true := by simp [Range.is_valid, hs, he, hne]
    refine ⟨?_, ?_, vector_minmax_cases s e hne⟩
    · simp [Range.get_real_start, hv, hs, he]
    · simp [Range.get_real_end, hv, hs, he]

/-- Witness for `range_real_endpoints` at the reversed same-row range
`(2,1)-(0,1)`. -/
theorem range_real_endpoints_witness :
    (Range.new ⟨2, 1⟩ ⟨0, 1⟩).get_real_start = some (vector_min ⟨2, 1⟩ ⟨0, 1⟩) ∧
    (Range.new ⟨2, 1⟩ ⟨0, 1⟩).get_real_end = some (vector_max ⟨2, 1⟩ ⟨0, 1⟩) ∧
    lexLt (vector_min ⟨2, 1⟩ ⟨0, 1⟩) (vector_max ⟨2, 1⟩ ⟨0, 1⟩) ∧
    ((vector_min ⟨2, 1⟩ ⟨0, 1⟩ = ⟨2, 1⟩ ∧ vector_max ⟨2, 1⟩ ⟨0, 1⟩ = ⟨0, 1⟩) ∨
      (vector_min ⟨2, 1⟩ ⟨0, 1⟩ = ⟨0, 1⟩ ∧ vector_max ⟨2, 1⟩ ⟨0, 1⟩ = ⟨2, 1⟩)) :=
  (range_real_endpoints (Range.new ⟨2, 1⟩ ⟨0, 1⟩)).2.2 ⟨2, 1⟩ ⟨0, 1⟩ rfl rfl (by decide)

/-- Once `is_ended` holds, `update` is the identity (the guard returns
immediately), hence "no effect from any later update call". -/
theorem anim_update_of_ended (a : Animation) (h : a.is_ended = true) (d : ℚ) :
    a.update d = a := by
  unfold Animation.update
  rw [if_pos (Or.inr (Or.inr h))]

/-- The running-state invariant threaded through a sequence of `update`
calls: the animation is armed and unfinished, its static fields are those of
`Animation::new`, and `last_t` records the consumed time `s` divided by the
duration. -/
def AnimRun (f t dur s : ℚ) (a : Animation) : Prop :=
  a.has_started = true ∧ a.is_paused = false ∧ a.is_ended = false ∧
  a.from' = f ∧ a.to' = t ∧ a.duration = dur ∧
  a.speed = |t - f| / dur ∧ a.last_t = s / dur ∧ 0 ≤ s

/-- An interior `update` step: consuming `d` with `s + d < duration` keeps
the invariant at `s + d`. -/
theorem anim_step (f t dur s d : ℚ) (a : Animation)
    (hft : f ≠ t) (hdur : 0 < dur) (hP : AnimRun f t dur s a)
    (hd : 0 < d) (hlt : s + d < dur) :
    AnimRun f t dur (s + d) (a.update d) := by
  obtain ⟨h1, h2, h3, h4, h5, h6, h7, h8, h9⟩ := hP
  have habs : |t - f| ≠ 0 := by
    rw [abs_ne_zero, sub_ne_zero]
    exact fun hh => hft hh.symm
  have hteq : a.last_t + d * a.speed / |a.to' - a.from'| = (s + d) / dur := by
    rw [h8, h7, h4, h5]
    field_simp
    ring
  have h01 : 0 < (s + d) / dur := div_pos (by linarith) hdur
  have h11 : (s + d) / dur < 1 := (div_lt_one hdur).mpr hlt
  have hclamp : min (max (a.last_t + d * a.speed / |a.to' - a.from'|) 0) 1 = (s + d) / dur := by
    rw [hteq, max_eq_left h01.le, min_eq_left h11.le]
  unfold Animation.update
  rw [if_neg (by simp [h1, h2, h3])]
  simp only [hclamp]
  rw [if_neg (by push_neg; constructor <;> linarith)]
  exact ⟨h1, h2, h3, h4, h5, h6, h7, rfl, by linarith⟩

/-- The final `update` step: when the consumed time reaches the duration
exactly, the clamped progress is 1 and the boundary branch sets `is_ended`
(without recomputing `value`). -/
theorem anim_final (f t dur s d : ℚ) (a : Animation)
    (hft : f ≠ t) (hdur : 0 < dur) (hP : AnimRun f t dur s a)
    (_hd : 0 < d) (heq : s + d = dur) :
    (a.update d).is_ended = true := by
  obtain ⟨h1, h2, h3, h4, h5, h6, h7, h8, h9⟩ := hP
  have habs : |t - f| ≠ 0 := by
    rw [abs_ne_zero, sub_ne_zero]
    exact fun hh => hft hh.symm
  have hteq : a.last_t + d * a.speed / |a.to' - a.from'| = (s + d) / dur := by
    rw [h8, h7, h4, h5]
    field_simp
    ring
  have hone : (s + d) / dur = 1 := by rw [heq]; exact div_self hdur.ne'
  have hclamp : min (max (a.last_t + d * a.speed / |a.to' - a.from'|) 0) 1 = 1 := by
    rw [hteq, hone]
    simp
  unfold Animation.update
  rw [if_neg (by simp [h1, h2, h3])]
  simp only [hclamp]
  rw [if_pos (Or.inl le_rfl)]

/-- Running a list of positive deltas whose total keeps the consumed time
strictly below the duration preserves the running invariant. -/
theorem anim_run_foldl (f t dur : ℚ) (hft : f ≠ t) (hdur : 0 < dur) :
    ∀ (dts : List ℚ) (s : ℚ) (a : Animation),
      AnimRun f t dur s a → (∀ d ∈ dts, 0 < d) → s + dts.sum < dur →
      AnimRun f t dur (s + dts.sum) (a.updates dts) := by
  intro dts
  induction dts with
  | nil => intro s a hP _ _; simpa [Animation.updates] using hP
  | cons d rest ih =>
    intro s a hP hpos hsum
    have hd : 0 < d := hpos d (by simp)
    have hrest : 0 ≤ rest.sum :=
      List.sum_nonneg fun x hx => (hpos x (by simp [hx])).le
    have hlt : s + d < dur := by
      simp only [List.sum_cons] at hsum
      linarith
    have hstep := anim_step f t dur s d a hft hdur hP hd hlt
    have hrec := ih (s + d) (a.update d) hstep (fun x hx => hpos x (by simp [hx]))
      (by simp only [List.sum_cons] at hsum; linarith)
    simpa [Animation.updates, List.sum_cons, add_assoc] using hrec

/-- Feeding positive deltas summing exactly to the remaining duration ends
the animation. -/
theorem anim_ended_after (f t dur : ℚ) (hft : f ≠ t) (hdur : 0 < dur) :
    ∀ (dts : List ℚ) (s : ℚ) (a : Animation),
      AnimRun f t dur s a → (∀ d ∈ dts, 0 < d) → s + dts.sum = dur → dts ≠ [] →
      (a.updates dts).is_ended = true := by
  intro dts
  induction dts with
  | nil => intro s a _ _ _ hne; exact absurd rfl hne
  | cons d rest ih =>
    intro s a hP hpos hsum _
    rcases eq_or_ne rest [] with hr | hr
    · subst hr
      simp only [List.sum_cons, List.sum_nil, add_zero] at hsum
      have hfin := anim_final f t dur s d a hft hdur hP (hpos d (by simp)) hsum
      simpa [Animation.updates, anim_update_of_ended] using hfin
    · have hd := hpos d (by simp)
      have hrpos : 0 < rest.sum :=
        List.sum_pos rest (fun x hx => hpos x (by simp [hx])) hr
      have hlt : s + d < dur := by
        simp only [List.sum_cons] at hsum
        linarith
      have hstep := anim_step f t dur s d a hft hdur hP hd hlt
      have hrec := ih (s + d) (a.update d) hstep (fun x hx => hpos x (by simp [hx]))
        (by simp only [List.sum_cons] at hsum; linarith) hr
      simpa [Animation.updates] using hrec

/-- C2 (amended): for a started animation with `from ≠ to` and positive
duration, feeding positive `update` deltas summing to `duration` makes
`is_ended` true exactly once — it is false after every proper prefix and any
later `update` call leaves the state unchanged; a zero-length animation
(`from = to`) is `is_ended` at construction.  (`update` does *not* recompute
`value` on the final call, so `value` is not driven to `to` — see the
counterexample.) -/
theorem animation_completion_amended (f t dur : ℚ) (e : EasingFunction) (dts : List ℚ)
    (hft : f ≠ t) (hdur : 0 < dur) (hpos : ∀ d ∈ dts, 0 < d)
    (hsum : dts.sum = dur) (hne : dts ≠ []) :
    ((Animation.new f t dur e).start.updates dts).is_ended = true ∧
    (∀ p q : List ℚ, dts = p ++ q → q ≠ [] →
      ((Animation.new f t dur e).start.updates p).is_ended = false) ∧
    (∀ d : ℚ, ((Animation.new f t dur e).start.updates dts).update d
      = (Animation.new f t dur e).start.updates dts) ∧
    (∀ (g d' : ℚ) (e' : EasingFunction), (Animation.new g g d' e').is_ended = true) := by
  have hinit : AnimRun f t dur 0 ((Animation.new f t dur e).start) := by
    unfold Animation.new Animation.start
    exact ⟨rfl, rfl, by simp [hft], rfl, rfl, rfl, rfl, (zero_div dur).symm, le_refl 0⟩
  have hend : ((Animation.new f t dur e).start.updates dts).is_ended = true :=
    anim_ended_after f t dur hft hdur dts 0 _ hinit hpos (by simpa using hsum) hne
  refine ⟨hend, ?_, ?_, ?_⟩
  · intro p q hpq hq
    have hppos : ∀ d ∈ p, 0 < d := fun d hd => hpos d (by simp [hpq, hd])
    have hqpos : 0 < q.sum :=
      List.sum_pos q (fun x hx => hpos x (by simp [hpq, hx])) hq
    have hsplit : p.sum + q.sum = dur := by
      rw [← hsum, hpq, List.sum_append]
    have hrun := anim_run_foldl f t dur hft hdur p 0 _ hinit hppos (by linarith)
    exact hrun.2.2.1
  · intro d
    exact anim_update_of_ended _ hend d
  · intro g d' e'
    simp [Animation.new]

/-- Witness for `animation_completion_amended`: a linear tween from 0 to 1
over duration 1, fed a single `update 1`. -/
theorem animation_completion_amended_witness :
    ((Animation.new (0 : ℚ) 1 1 .Linear).start.updates [1]).is_ended = true :=
  (animation_completion_amended 0 1 1 .Linear [1] (by norm_num) (by norm_num)
    (by intro d hd; rw [List.mem_singleton] at hd; rw [hd]; norm_num)
    (by simp) (by simp)).1

/-- C2 (counterexample): the same single `update` whose delta equals the
duration ends the animation but leaves `value` at `from = 0`, not at
`to = 1` — the boundary branch of `Animation::update` returns before
recomputing `value`. -/
theorem animation_value_not_target_cex :
    ((Animation.new (0 : ℚ) 1 1 .Linear).start.update 1).is_ended = true ∧
    ((Animation.new (0 : ℚ) 1 1 .Linear).start.update 1).value = 0 ∧
    ¬ ((Animation.new (0 : ℚ) 1 1 .Linear).start.update 1).value = 1 := by
  have hupd : (Animation.new (0 : ℚ) 1 1 .Linear).start.update 1
      = { (Animation.new (0 : ℚ) 1 1 .Linear).start with is_ended := true } := by
    simp only [Animation.new, Animation.start, Animation.update]
    norm_num
  rw [hupd]
  refine ⟨rfl, rfl, by norm_num [Animation.new, Animation.start]⟩

/-- An empty document: one empty line, cursor at the origin, no selection,
no modifiers (left alignment, unit character width). -/
def st_empty : EditorSt :=
  ⟨[⟨[], 0⟩], 0, 0, Range.default, [], [], ⟨false, false, false, false⟩, 1⟩

/-- C5: typing `"("` on the empty line yields `["(", ")"]` with the cursor at
column 1 — but the following `delete_char` removes only the opener, leaving
`[")"]` (cursor at column 0): the auto-pair deletion tests the two adjacent
characters for *equality*, which holds for `"\""` pairs (third block: typing
`"\""` then deleting does collapse back to `[]`) and never for brackets. -/
theorem auto_pair_insert_delete_eval :
    (add_char st_empty "(").lines.map LineM.buffer = [["(", ")"]] ∧
    (add_char st_empty "(").cursorX = 1 ∧
    (add_char st_empty "(").cursorY = 0 ∧
    (delete_char (add_char st_empty "(")).lines.map LineM.buffer = [[")"]] ∧
    (delete_char (add_char st_empty "(")).cursorX = 0 ∧
    (delete_char (add_char st_empty "\"")).lines.map LineM.buffer = [[]] ∧
    (delete_char (add_char st_empty "\"")).cursorX = 0 := by
  refine ⟨?_, ?_, ?_, ?_, ?_, ?_, ?_⟩ <;> decide
